import Mathlib

/-!
Verification development for the inventory-management repository.

The TypeScript sources are shallowly embedded: JavaScript numbers are
modelled as rationals, timestamps as integers counting unix milliseconds,
fallible service calls as explicit response values, and the Mongo-backed
incoming-stock ledger as a pure state-transition function.  Each embedded
definition names the source function it translates.
-/

set_option maxHeartbeats 1000000

/-- Urgency levels, from the UrgencyLevelEnum in src/core/enums. -/
inductive UrgencyLevelEnum where
  | Low
  | Medium
  | High
  | Critical
deriving DecidableEq, Repr

/-- Shallow embedding of calculateRestockQuantity from
src/src/restock-prediction/restock-prediction.service.ts (lines 426-458).
The ledger lookup performed inside the source body is purified: its two
results, daysPassed and incomingQuantityForSinglePO, are passed as explicit
arguments.  Quantities are rationals, day counts are integers. -/
def calculateRestockQuantity (perDaySales predictionDays availableStock incomingStock : ℚ)
    (daysPassed : ℤ) (incomingQuantityForSinglePO : ℚ) : ℚ :=
  let shipmentDays : ℤ := 15
  let reorderQuantity := perDaySales * predictionDays
  if 0 < incomingStock then
    let daysRemainingForIncomingStock : ℤ := shipmentDays - daysPassed
    let totalConsumptionDuringShipment := perDaySales * (daysRemainingForIncomingStock : ℚ)
    if availableStock ≥ totalConsumptionDuringShipment ∧
        incomingQuantityForSinglePO ≥ reorderQuantity then 0
    else if availableStock ≥ totalConsumptionDuringShipment ∧
        availableStock ≥ reorderQuantity then 0
    else if incomingQuantityForSinglePO ≥ reorderQuantity ∨
        incomingQuantityForSinglePO > reorderQuantity - 1 then 0
    else reorderQuantity
  else
    if reorderQuantity < availableStock ∨ reorderQuantity < availableStock + 1 then 0
    else reorderQuantity + reorderQuantity - availableStock

/-- Reference definition of the restock quantity exactly as claim C1 states it
(spec section 4.5): in the incoming-aware branch the third zero-condition is the
single check incomingQtyOfMostRecentPO >= reorderQuantity. -/
def restockQuantityRef (perDaySales predictionDays availableStock incomingStock : ℚ)
    (daysPassed : ℤ) (incomingQtyOfMostRecentPO : ℚ) : ℚ :=
  let reorderQuantity := perDaySales * predictionDays
  if 0 < incomingStock then
    let consumptionDuringShipment := perDaySales * (((15 : ℤ) - daysPassed : ℤ) : ℚ)
    if (availableStock ≥ consumptionDuringShipment ∧ incomingQtyOfMostRecentPO ≥ reorderQuantity)
        ∨ (availableStock ≥ consumptionDuringShipment ∧ availableStock ≥ reorderQuantity)
        ∨ incomingQtyOfMostRecentPO ≥ reorderQuantity then 0
    else reorderQuantity
  else
    if reorderQuantity < availableStock ∨ reorderQuantity < availableStock + 1 then 0
    else reorderQuantity + (reorderQuantity - availableStock)

/-- Reference definition amended to match the source: the third zero-condition is
the source's disjunction incomingQty >= reorder or incomingQty > reorder - 1. -/
def restockQuantityRefAmended (perDaySales predictionDays availableStock incomingStock : ℚ)
    (daysPassed : ℤ) (incomingQtyOfMostRecentPO : ℚ) : ℚ :=
  let reorderQuantity := perDaySales * predictionDays
  if 0 < incomingStock then
    let consumptionDuringShipment := perDaySales * (((15 : ℤ) - daysPassed : ℤ) : ℚ)
    if (availableStock ≥ consumptionDuringShipment ∧ incomingQtyOfMostRecentPO ≥ reorderQuantity)
        ∨ (availableStock ≥ consumptionDuringShipment ∧ availableStock ≥ reorderQuantity)
        ∨ (incomingQtyOfMostRecentPO ≥ reorderQuantity ∨
            incomingQtyOfMostRecentPO > reorderQuantity - 1) then 0
    else reorderQuantity
  else
    if reorderQuantity < availableStock ∨ reorderQuantity < availableStock + 1 then 0
    else reorderQuantity + (reorderQuantity - availableStock)

/-- Variant of calculateRestockQuantity with the third zero-condition of the
incoming-aware branch replaced by the single check incomingQuantityForSinglePO >=
reorderQuantity, as claim C7 proposes. -/
def calculateRestockQuantitySimplified (perDaySales predictionDays availableStock incomingStock : ℚ)
    (daysPassed : ℤ) (incomingQuantityForSinglePO : ℚ) : ℚ :=
  let shipmentDays : ℤ := 15
  let reorderQuantity := perDaySales * predictionDays
  if 0 < incomingStock then
    let daysRemainingForIncomingStock : ℤ := shipmentDays - daysPassed
    let totalConsumptionDuringShipment := perDaySales * (daysRemainingForIncomingStock : ℚ)
    if availableStock ≥ totalConsumptionDuringShipment ∧
        incomingQuantityForSinglePO ≥ reorderQuantity then 0
    else if availableStock ≥ totalConsumptionDuringShipment ∧
        availableStock ≥ reorderQuantity then 0
    else if incomingQuantityForSinglePO ≥ reorderQuantity then 0
    else reorderQuantity
  else
    if reorderQuantity < availableStock ∨ reorderQuantity < availableStock + 1 then 0
    else reorderQuantity + reorderQuantity - availableStock

/-- Variant of calculateRestockQuantity with the third zero-condition replaced by
the single strict check incomingQuantityForSinglePO > reorderQuantity - 1, the
disjunct that actually subsumes the other one. -/
def calculateRestockQuantityGtForm (perDaySales predictionDays availableStock incomingStock : ℚ)
    (daysPassed : ℤ) (incomingQuantityForSinglePO : ℚ) : ℚ :=
  let shipmentDays : ℤ := 15
  let reorderQuantity := perDaySales * predictionDays
  if 0 < incomingStock then
    let daysRemainingForIncomingStock : ℤ := shipmentDays - daysPassed
    let totalConsumptionDuringShipment := perDaySales * (daysRemainingForIncomingStock : ℚ)
    if availableStock ≥ totalConsumptionDuringShipment ∧
        incomingQuantityForSinglePO ≥ reorderQuantity then 0
    else if availableStock ≥ totalConsumptionDuringShipment ∧
        availableStock ≥ reorderQuantity then 0
    else if incomingQuantityForSinglePO > reorderQuantity - 1 then 0
    else reorderQuantity
  else
    if reorderQuantity < availableStock ∨ reorderQuantity < availableStock + 1 then 0
    else reorderQuantity + reorderQuantity - availableStock

/-- Shallow embedding of calculateUrgencyLevel from
src/src/restock-prediction/restock-prediction.service.ts (lines 462-484);
the source default leadTime = 15 is kept as a default argument. -/
def calculateUrgencyLevel (availableStock incomingStock perDaySoldSevenDaysRange : ℚ)
    (leadTime : ℚ := 15) : UrgencyLevelEnum :=
  if availableStock < 0 then .Critical
  else if perDaySoldSevenDaysRange = 0 then .Low
  else
    let daysOfStockLeft := (availableStock + incomingStock) / perDaySoldSevenDaysRange
    if daysOfStockLeft ≤ leadTime then .Critical
    else if daysOfStockLeft ≤ leadTime + 7 then .High
    else if daysOfStockLeft ≤ 30 then .Medium
    else .Low

/-- Urgency classification exactly as claim C2 states it, with the literal
thresholds 15, 22 and 30. -/
def urgencyLevelSpec (availableStock incomingStock perDaySales : ℚ) : UrgencyLevelEnum :=
  if availableStock < 0 then .Critical
  else if perDaySales = 0 then .Low
  else if (availableStock + incomingStock) / perDaySales ≤ 15 then .Critical
  else if (availableStock + incomingStock) / perDaySales ≤ 22 then .High
  else if (availableStock + incomingStock) / perDaySales ≤ 30 then .Medium
  else .Low

/-- A chain of ifs that each return the same value collapses to a single if on
the disjunction of the conditions. -/
theorem ite_or_three {α : Type} (c1 c2 c3 : Prop) [Decidable c1] [Decidable c2] [Decidable c3]
    (x y : α) :
    (if c1 then x else if c2 then x else if c3 then x else y) =
      if c1 ∨ c2 ∨ c3 then x else y := by
  split_ifs <;> first | rfl | tauto

/-- C1 counterexample: the claim asserts calculateRestockQuantity equals the
reference definition whose third zero-condition is the single check poQty >=
reorder.  At perDaySales = 299/10, predictionDays = 5 the reorder quantity is
149.5; with a most-recent-PO quantity of 149 the source's extra disjunct
poQty > reorder - 1 fires and the source returns 0, while the reference
returns 149.5. -/
theorem c1_counterexample :
    calculateRestockQuantity (299/10) 5 0 1 15 149 = 0 ∧
    restockQuantityRef (299/10) 5 0 1 15 149 = 299/2 := by
  constructor <;> norm_num [calculateRestockQuantity, restockQuantityRef]

/-- C1 (amended): calculateRestockQuantity equals the section 4.5 reference
definition once the third zero-condition of the incoming-aware branch is taken
to be the source's disjunction poQty >= reorder or poQty > reorder - 1; the
first section 8 scenario gives 100, and the second gives 0 exactly when the
most-recent-PO quantity exceeds 149 (for integer quantities: is at least 150)
and 150 otherwise. -/
theorem c1_amended_restock_matches_reference :
    (∀ p d a i : ℚ, ∀ dp : ℤ, ∀ q : ℚ,
      calculateRestockQuantity p d a i dp q = restockQuantityRefAmended p d a i dp q) ∧
    (∀ dp : ℤ, ∀ q : ℚ, calculateRestockQuantity 5 15 50 0 dp q = 100) ∧
    (∀ q : ℚ, calculateRestockQuantity 10 15 20 200 5 q = if 149 < q then 0 else 150) := by
  refine ⟨fun p d a i dp q => ?_, fun dp q => ?_, fun q => ?_⟩
  · simp only [calculateRestockQuantity, restockQuantityRefAmended]
    rw [ite_or_three]
    by_cases hi : 0 < i
    · rw [if_pos hi, if_pos hi]
    · rw [if_neg hi, if_neg hi]
      split_ifs
      · rfl
      · ring
  · norm_num [calculateRestockQuantity]
  · simp only [calculateRestockQuantity]
    norm_num
    split_ifs with h1 h2 h3
    · rfl
    · rcases h1 with h | h
      · exact absurd (show (149 : ℚ) < q by linarith) h2
      · exact absurd h h2
    · exact absurd (Or.inr h3) h1
    · rfl

/-- C2: calculateUrgencyLevel at the source's default lead time agrees with the
spec's classification: Critical for negative available stock even at zero
velocity, Low at zero velocity otherwise, and otherwise classified by
daysOfStockLeft = (available + incoming) / perDaySales against the thresholds
15, 22 and 30. -/
theorem c2_urgency_level_spec (a i p : ℚ) :
    calculateUrgencyLevel a i p = urgencyLevelSpec a i p := by
  simp only [calculateUrgencyLevel, urgencyLevelSpec]
  norm_num

/-- The second disjunct of the source's third zero-condition subsumes the
first one. -/
theorem restock_cond_or_iff (q r : ℚ) : (r ≤ q ∨ r - 1 < q) ↔ r - 1 < q :=
  ⟨fun h => h.elim (fun h' => by linarith) id, Or.inr⟩

/-- On integer values the strict form of the third zero-condition coincides
with the non-strict one. -/
theorem restock_cond_int_iff (zq zr : ℤ) :
    ((zr : ℚ) - 1 < (zq : ℚ)) ↔ (zr : ℚ) ≤ (zq : ℚ) := by
  constructor
  · intro h
    have h' : zr - 1 < zq := by exact_mod_cast h
    exact_mod_cast (by omega : zr ≤ zq)
  · intro h
    linarith

/-- C7 counterexample: replacing the disjunction poQty >= reorder or
poQty > reorder - 1 by the single check poQty >= reorder does change the
returned value: at perDaySales = 299/10, predictionDays = 5 (reorder = 149.5),
available = 0, incoming = 1, daysPassed = 15, poQty = 149 the source returns 0
but the simplified form returns 149.5. -/
theorem c7_counterexample :
    calculateRestockQuantity (299/10) 5 0 1 15 149 = 0 ∧
    calculateRestockQuantitySimplified (299/10) 5 0 1 15 149 = 299/2 := by
  constructor <;> norm_num [calculateRestockQuantity, calculateRestockQuantitySimplified]

/-- C7 (amended): in the source's disjunction the redundant disjunct is the
first one: for every input, replacing the disjunction by the single strict
check poQty > reorder - 1 never changes the result; replacing it by
poQty >= reorder is value-preserving on integer inputs, namely whenever the
PO quantity and the reorder quantity are both integers. -/
theorem c7_amended_condition_three (p d a i : ℚ) (dp : ℤ) (q : ℚ) :
    calculateRestockQuantity p d a i dp q = calculateRestockQuantityGtForm p d a i dp q ∧
    ((∃ zq : ℤ, q = (zq : ℚ)) → (∃ zr : ℤ, p * d = (zr : ℚ)) →
      calculateRestockQuantity p d a i dp q =
        calculateRestockQuantitySimplified p d a i dp q) := by
  constructor
  · simp only [calculateRestockQuantity, calculateRestockQuantityGtForm, ge_iff_le, gt_iff_lt,
      restock_cond_or_iff]
  · intro hq hr
    obtain ⟨zq, rfl⟩ := hq
    obtain ⟨zr, hzr⟩ := hr
    simp only [calculateRestockQuantity, calculateRestockQuantitySimplified, ge_iff_le,
      gt_iff_lt, hzr, restock_cond_or_iff, restock_cond_int_iff, or_self]

/-- C10: with nonnegative sales velocity and nonnegative prediction days the
restock quantity is never negative, for every available stock (including
negative oversell values), every incoming stock and every ledger lookup
result; moreover on the incoming-unaware path the nonzero branch is reachable
only when reorder >= available + 1, where it returns 2 * reorder - available,
which is strictly positive there. -/
theorem c10_restock_nonneg (p d a i : ℚ) (dp : ℤ) (q : ℚ)
    (hp : 0 ≤ p) (hd : 0 ≤ d) :
    0 ≤ calculateRestockQuantity p d a i dp q ∧
    (¬ 0 < i → calculateRestockQuantity p d a i dp q = 0 ∨
      (a + 1 ≤ p * d ∧ calculateRestockQuantity p d a i dp q = p * d + p * d - a ∧
        0 < p * d + p * d - a)) := by
  have hr : 0 ≤ p * d := mul_nonneg hp hd
  constructor
  · simp only [calculateRestockQuantity]
    split_ifs with h1 h2 h3 h4 h5 <;> try positivity
    · push_neg at h5
      linarith [h5.2]
  · intro hi
    simp only [calculateRestockQuantity, if_neg hi]
    split_ifs with h1
    · exact Or.inl rfl
    · push_neg at h1
      exact Or.inr ⟨by linarith [h1.2], rfl, by linarith [h1.2]⟩

/-- Witness for c7_amended_condition_three: the universal strict-check
conjunct at the fractional counterexample input, and the integer-only
conjunct at concrete integer inputs with both integrality hypotheses
discharged. -/
theorem c7_amended_condition_three_witness :
    (calculateRestockQuantity (299/10) 5 0 1 15 149 =
      calculateRestockQuantityGtForm (299/10) 5 0 1 15 149) ∧
    (calculateRestockQuantity 10 15 20 200 5 149 =
      calculateRestockQuantitySimplified 10 15 20 200 5 149) :=
  ⟨(c7_amended_condition_three (299/10) 5 0 1 15 149).1,
    (c7_amended_condition_three 10 15 20 200 5 149).2
      ⟨149, by norm_num⟩ ⟨150, by norm_num⟩⟩

/-- Witness for c10_restock_nonneg at concrete inputs with negative available
stock. -/
theorem c10_restock_nonneg_witness :
    0 ≤ calculateRestockQuantity 5 15 (-4) 0 0 0 :=
  (c10_restock_nonneg 5 15 (-4) 0 0 0 (by norm_num) (by norm_num)).1

/-- One dated purchase-order history entry, from the IncomingChange class in
the incoming-history schema; the date is a unix-millisecond timestamp (the
schema marks it required), quantities are rationals. -/
structure IncomingChange where
  date : ℤ
  quantity : ℚ
  totalOrderQuantity : ℚ
deriving DecidableEq, Repr

/-- The per-variant ledger record, from the TrackIncoming schema; identity
fields (shop, variantId, productId, inventoryItemId) play no role in the
verified claims and are omitted. -/
structure TrackIncoming where
  incoming : ℚ
  incomingLastChangedAt : ℤ
  incomingHistory : List IncomingChange
deriving DecidableEq, Repr

/-- Milliseconds per day, as the source computes it inline. -/
def msPerDay : ℤ := 1000 * 60 * 60 * 24

/-- Shallow embedding of getRemainingDaysForIncoming from
src/src/restock-prediction/restock-prediction.service.ts (lines 486-507).
The findOne result is the record argument; Math.floor of the millisecond
difference over a day is integer floor division. -/
def getRemainingDaysForIncoming (record : Option TrackIncoming) (now : ℤ) : ℤ × ℚ :=
  match record with
  | some r =>
    match r.incomingHistory with
    | [entry] =>
      let diffMs := now - entry.date
      let daysPassed := Int.fdiv diffMs msPerDay
      (daysPassed, entry.quantity)
    | _ => (0, 0)
  | none => (0, 0)

/-- C9: the prediction engine's ledger lookup returns the floored day count
since the single history entry's date together with that entry's quantity
exactly when the record has exactly one history entry, and (0, 0) in every
other state: no record, empty history, or two or more entries. -/
theorem c9_remaining_days_lookup (record : Option TrackIncoming) (now : ℤ) :
    (∀ r entry, record = some r → r.incomingHistory = [entry] →
      getRemainingDaysForIncoming record now =
        (Int.fdiv (now - entry.date) msPerDay, entry.quantity)) ∧
    (∀ r, record = some r → r.incomingHistory.length ≠ 1 →
      getRemainingDaysForIncoming record now = (0, 0)) ∧
    (record = none → getRemainingDaysForIncoming record now = (0, 0)) := by
  refine ⟨?_, ?_, ?_⟩
  · rintro r entry rfl hh
    simp [getRemainingDaysForIncoming, hh]
  · rintro r rfl hlen
    match h : r.incomingHistory with
    | [] => simp [getRemainingDaysForIncoming, h]
    | [e] => exact absurd (by rw [h]; rfl) hlen
    | e1 :: e2 :: t => simp [getRemainingDaysForIncoming, h]
  · rintro rfl
    rfl

/-- Witness for c9_remaining_days_lookup: a record whose single entry is dated
one day and one millisecond before now yields daysPassed = 1 and the entry's
quantity. -/
theorem c9_remaining_days_lookup_witness :
    getRemainingDaysForIncoming (some ⟨7, 0, [⟨0, 7, 7⟩]⟩) 86400001 = (1, 7) := by
  have h := (c9_remaining_days_lookup (some ⟨7, 0, [⟨0, 7, 7⟩]⟩) 86400001).1
    ⟨7, 0, [⟨0, 7, 7⟩]⟩ ⟨0, 7, 7⟩ rfl rfl
  rw [h]
  norm_num [msPerDay]
  decide

/-- The JavaScript sort comparator (a, b) => date(a) - date(b) sorts ascending
by date; Array.prototype.sort is a stable sort, modelled by List.mergeSort on
the boolean date comparison. -/
def sortByDate (history : List IncomingChange) : List IncomingChange :=
  history.mergeSort (fun a b => a.date ≤ b.date)

/-- Ascending-by-date ordering of a history list, the sortedness half of the
section 3 ledger invariant. -/
def HistorySortedByDate (history : List IncomingChange) : Prop :=
  history.Pairwise (fun a b => a.date ≤ b.date)

/-- Sum of the quantity field across a history list. -/
def historyQuantitySum (history : List IncomingChange) : ℚ :=
  (history.map (·.quantity)).sum

/-- The section 3 ledger invariant for a single record: the history quantities
sum to the incoming field, the history is sorted ascending by date, and no
entry has negative quantity. -/
def RecordInvariant (r : TrackIncoming) : Prop :=
  historyQuantitySum r.incomingHistory = r.incoming ∧
  HistorySortedByDate r.incomingHistory ∧
  ∀ e ∈ r.incomingHistory, 0 ≤ e.quantity

/-- The consumption loop of recalculateDecreasedHistory (src/unnamed/part_007,
lines 1616-1636): the mutable remaining/result pair of the source loop becomes
structural recursion, entries emitted in the order the loop pushes them. -/
def consumeHistory (remaining : ℚ) : List IncomingChange → List IncomingChange
  | [] => []
  | entry :: rest =>
    if remaining ≤ 0 then entry :: consumeHistory remaining rest
    else if entry.quantity ≤ remaining then consumeHistory (remaining - entry.quantity) rest
    else { entry with quantity := entry.quantity - remaining } :: consumeHistory 0 rest

/-- Shallow embedding of recalculateDecreasedHistory (src/unnamed/part_007,
lines 1611-1643): sort the stored history ascending by date, consume the
decrease amount through the loop, then rewrite every retained entry's
totalOrderQuantity to the new incoming value. -/
def recalculateDecreasedHistory (existing : Option TrackIncoming)
    (oldIncoming newIncoming : ℚ) : List IncomingChange :=
  let decreaseAmount := oldIncoming - newIncoming
  let history := sortByDate ((existing.map (·.incomingHistory)).getD [])
  let result := consumeHistory decreaseAmount history
  result.map (fun entry => { entry with totalOrderQuantity := newIncoming })

/-- Shallow embedding of buildUpdateOperation (src/unnamed/part_007, lines
1539-1608) combined with the effect of applying the produced Mongo update via
updateOne with upsert: a push appends to the stored history (empty when the
record does not yet exist), the decrease case replaces the history with the
recalculated list sorted ascending by date, and the no-change case keeps the
stored incomingLastChangedAt (defaulting to now).  Identity fields are
omitted as in the TrackIncoming structure. -/
def buildUpdateOperation (existing : Option TrackIncoming)
    (oldIncoming newIncoming : ℚ) (now : ℤ) : TrackIncoming :=
  let storedHistory := (existing.map (·.incomingHistory)).getD []
  if oldIncoming = 0 ∧ 0 < newIncoming then
    { incoming := newIncoming, incomingLastChangedAt := now,
      incomingHistory := storedHistory ++ [⟨now, newIncoming, newIncoming⟩] }
  else if oldIncoming < newIncoming then
    { incoming := newIncoming, incomingLastChangedAt := now,
      incomingHistory := storedHistory ++ [⟨now, newIncoming - oldIncoming, newIncoming⟩] }
  else if newIncoming < oldIncoming then
    { incoming := newIncoming, incomingLastChangedAt := now,
      incomingHistory := sortByDate (recalculateDecreasedHistory existing oldIncoming newIncoming) }
  else
    { incoming := newIncoming,
      incomingLastChangedAt := (existing.map (·.incomingLastChangedAt)).getD now,
      incomingHistory := storedHistory }

/-- Per-variant effect of one reconciliation step of buildBulkOperations
(src/unnamed/part_007, lines 1490-1536) on the stored record: a new incoming
value of at most zero deletes the record (or leaves it absent); otherwise the
update operation built from oldIncoming = existing incoming-or-zero is
applied, creating the record when absent. -/
def ledgerStep (existing : Option TrackIncoming) (newIncoming : ℚ) (now : ℤ) :
    Option TrackIncoming :=
  let oldIncoming := (existing.map (·.incoming)).getD 0
  if newIncoming ≤ 0 then none
  else some (buildUpdateOperation existing oldIncoming newIncoming now)

/-- Sorting an already date-sorted history leaves it unchanged. -/
theorem sortByDate_of_sorted {l : List IncomingChange} (h : HistorySortedByDate l) :
    sortByDate l = l :=
  List.mergeSort_of_sorted (l := l) (h.imp fun hab => decide_eq_true hab)

/-- The consumption loop keeps every entry once the remaining decrease is
nonpositive. -/
theorem consumeHistory_nonpos (r : ℚ) (l : List IncomingChange) (hr : r ≤ 0) :
    consumeHistory r l = l := by
  induction l with
  | nil => rfl
  | cons e t ih => simp [consumeHistory, if_pos hr, ih]

/-- Every entry emitted by the consumption loop carries the date of one of
the input entries. -/
theorem consumeHistory_date_mem (r : ℚ) (l : List IncomingChange) :
    ∀ e ∈ consumeHistory r l, ∃ x ∈ l, e.date = x.date := by
  induction l generalizing r with
  | nil => intro e he; simp [consumeHistory] at he
  | cons a t ih =>
    intro e he
    simp only [consumeHistory] at he
    split_ifs at he with h1 h2
    · rcases List.mem_cons.mp he with heq | he'
      · exact ⟨a, List.mem_cons_self a t, by rw [heq]⟩
      · obtain ⟨x, hx, hd⟩ := ih r e he'
        exact ⟨x, List.mem_cons_of_mem a hx, hd⟩
    · obtain ⟨x, hx, hd⟩ := ih (r - a.quantity) e he
      exact ⟨x, List.mem_cons_of_mem a hx, hd⟩
    · rcases List.mem_cons.mp he with heq | he'
      · exact ⟨a, List.mem_cons_self a t, by rw [heq]⟩
      · obtain ⟨x, hx, hd⟩ := ih 0 e he'
        exact ⟨x, List.mem_cons_of_mem a hx, hd⟩

/-- The consumption loop preserves ascending-by-date ordering. -/
theorem consumeHistory_sorted (r : ℚ) (l : List IncomingChange)
    (h : HistorySortedByDate l) : HistorySortedByDate (consumeHistory r l) := by
  induction l generalizing r with
  | nil => exact List.Pairwise.nil
  | cons a t ih =>
    rw [HistorySortedByDate, List.pairwise_cons] at h
    obtain ⟨ha, ht⟩ := h
    simp only [consumeHistory]
    split_ifs with h1 h2
    · refine List.Pairwise.cons ?_ (ih r ht)
      intro e he
      obtain ⟨x, hx, hd⟩ := consumeHistory_date_mem r t e he
      rw [hd]
      exact ha x hx
    · exact ih (r - a.quantity) ht
    · refine List.Pairwise.cons ?_ (ih 0 ht)
      intro e he
      obtain ⟨x, hx, hd⟩ := consumeHistory_date_mem 0 t e he
      rw [hd]
      exact ha x hx

/-- The consumption loop preserves nonnegativity of entry quantities. -/
theorem consumeHistory_nonneg (r : ℚ) (l : List IncomingChange)
    (hq : ∀ e ∈ l, 0 ≤ e.quantity) :
    ∀ e ∈ consumeHistory r l, 0 ≤ e.quantity := by
  induction l generalizing r with
  | nil => intro e he; simp [consumeHistory] at he
  | cons a t ih =>
    intro e he
    simp only [consumeHistory] at he
    split_ifs at he with h1 h2
    · rcases List.mem_cons.mp he with heq | he'
      · rw [heq]
        exact hq a (List.mem_cons_self a t)
      · exact ih r (fun x hx => hq x (List.mem_cons_of_mem a hx)) e he'
    · exact ih (r - a.quantity) (fun x hx => hq x (List.mem_cons_of_mem a hx)) e he
    · rcases List.mem_cons.mp he with rfl | he'
      · push_neg at h1 h2
        simp only
        linarith
      · exact ih 0 (fun x hx => hq x (List.mem_cons_of_mem a hx)) e he'

/-- When the decrease is between zero and the total stored quantity, the
consumption loop removes exactly that amount from the quantity sum. -/
theorem consumeHistory_sum (r : ℚ) (l : List IncomingChange)
    (hq : ∀ e ∈ l, 0 ≤ e.quantity) (h0 : 0 ≤ r) (hle : r ≤ historyQuantitySum l) :
    historyQuantitySum (consumeHistory r l) = historyQuantitySum l - r := by
  induction l generalizing r with
  | nil =>
    simp only [historyQuantitySum, List.map_nil, List.sum_nil] at hle ⊢
    simp [consumeHistory]
    linarith
  | cons a t ih =>
    have hat : ∀ e ∈ t, 0 ≤ e.quantity := fun x hx => hq x (List.mem_cons_of_mem a hx)
    have hsum_t : 0 ≤ historyQuantitySum t := by
      simp only [historyQuantitySum]
      exact List.sum_nonneg (by
        intro x hx
        obtain ⟨e, he, rfl⟩ := List.mem_map.mp hx
        exact hat e he)
    simp only [historyQuantitySum, List.map_cons, List.sum_cons] at hle ⊢
    simp only [consumeHistory]
    split_ifs with h1 h2
    · have hr0 : r = 0 := le_antisymm h1 h0
      subst hr0
      rw [consumeHistory_nonpos 0 t le_rfl]
      simp [historyQuantitySum]
    · have := ih (r - a.quantity) hat (by linarith)
        (by simp only [historyQuantitySum]; linarith)
      simp only [historyQuantitySum] at this
      rw [this]
      ring
    · rw [consumeHistory_nonpos 0 t le_rfl]
      simp only [List.map_cons, List.sum_cons]
      ring

/-- Rewriting totalOrderQuantity leaves the quantity sum unchanged. -/
theorem historyQuantitySum_settot (l : List IncomingChange) (t : ℚ) :
    historyQuantitySum (l.map (fun e => { e with totalOrderQuantity := t })) =
      historyQuantitySum l := by
  induction l with
  | nil => rfl
  | cons a s ih =>
    simp only [historyQuantitySum, List.map_cons, List.sum_cons] at ih ⊢
    rw [ih]

/-- Rewriting totalOrderQuantity preserves ascending-by-date ordering. -/
theorem historySorted_settot {l : List IncomingChange} (t : ℚ)
    (h : HistorySortedByDate l) :
    HistorySortedByDate (l.map (fun e => { e with totalOrderQuantity := t })) := by
  refine List.Pairwise.map _ ?_ h
  intro a b hab
  exact hab

/-- Rewriting totalOrderQuantity preserves nonnegative quantities. -/
theorem historyNonneg_settot {l : List IncomingChange} (t : ℚ)
    (h : ∀ e ∈ l, 0 ≤ e.quantity) :
    ∀ e ∈ l.map (fun x => { x with totalOrderQuantity := t }), 0 ≤ e.quantity := by
  intro e he
  obtain ⟨x, hx, rfl⟩ := List.mem_map.mp he
  exact h x hx

/-- Appending an entry dated at or after every stored entry keeps the history
sorted ascending by date. -/
theorem historySorted_append {l : List IncomingChange} (e : IncomingChange)
    (h : HistorySortedByDate l) (hle : ∀ x ∈ l, x.date ≤ e.date) :
    HistorySortedByDate (l ++ [e]) := by
  rw [HistorySortedByDate, List.pairwise_append]
  refine ⟨h, List.pairwise_singleton _ _, ?_⟩
  intro x hx y hy
  rw [List.mem_singleton.mp hy]
  exact hle x hx

/-- The quantity sum of a history with nonnegative entries is nonnegative. -/
theorem historyQuantitySum_nonneg {l : List IncomingChange}
    (h : ∀ e ∈ l, 0 ≤ e.quantity) : 0 ≤ historyQuantitySum l := by
  simp only [historyQuantitySum]
  refine List.sum_nonneg ?_
  intro x hx
  obtain ⟨e, he, rfl⟩ := List.mem_map.mp hx
  exact h e he

/-- C3: one ledger reconciliation step, applied to a record satisfying the
section 3 invariant whose history entries are all dated at or before now,
deletes the record exactly when the observed newIncoming is nonpositive;
every surviving record again satisfies the invariant and carries incoming =
newIncoming; and starting from no record, a record is created exactly when
the first observed incoming quantity is positive. -/
theorem c3_ledger_step_invariant (existing : Option TrackIncoming)
    (newIncoming : ℚ) (now : ℤ)
    (hinv : ∀ r, existing = some r → RecordInvariant r)
    (hdates : ∀ r, existing = some r → ∀ e ∈ r.incomingHistory, e.date ≤ now) :
    (ledgerStep existing newIncoming now = none ↔ newIncoming ≤ 0) ∧
    (∀ r', ledgerStep existing newIncoming now = some r' →
      RecordInvariant r' ∧ r'.incoming = newIncoming) ∧
    (∀ q : ℚ, (ledgerStep none q now).isSome ↔ 0 < q) := by
  refine ⟨?_, ?_, ?_⟩
  · simp only [ledgerStep]
    split_ifs with h
    · simp [h]
    · simp [h]
  · intro r' hr'
    simp only [ledgerStep] at hr'
    split_ifs at hr' with hneg
    have hpos : 0 < newIncoming := lt_of_not_le hneg
    rw [Option.some_inj] at hr'
    subst hr'
    cases existing with
    | none =>
      constructor
      · refine ⟨?_, ?_, ?_⟩
        · simp [buildUpdateOperation, hpos, historyQuantitySum]
        · simp only [buildUpdateOperation, Option.map_none, Option.getD_none]
          rw [if_pos ⟨rfl, hpos⟩]
          exact List.pairwise_singleton _ _
        · simp only [buildUpdateOperation, Option.map_none, Option.getD_none]
          rw [if_pos ⟨rfl, hpos⟩]
          intro e he
          rw [List.mem_singleton.mp he]
          exact le_of_lt hpos
      · simp [buildUpdateOperation, hpos]
    | some ex =>
      obtain ⟨hsum, hsorted, hnonneg⟩ := hinv ex rfl
      have hdl : ∀ e ∈ ex.incomingHistory, e.date ≤ now := hdates ex rfl
      simp only [buildUpdateOperation, Option.map_some', Option.getD_some]
      by_cases h1 : ex.incoming = 0 ∧ 0 < newIncoming
      · rw [if_pos h1]
        refine ⟨⟨?_, ?_, ?_⟩, rfl⟩
        · simp only [historyQuantitySum, List.map_append, List.sum_append,
            List.map_cons, List.map_nil, List.sum_cons, List.sum_nil]
          simp only [historyQuantitySum] at hsum
          rw [hsum, h1.1]
          ring
        · exact historySorted_append _ hsorted hdl
        · intro e he
          rcases List.mem_append.mp he with he' | he'
          · exact hnonneg e he'
          · rw [List.mem_singleton.mp he']
            exact le_of_lt hpos
      · rw [if_neg h1]
        by_cases h2 : ex.incoming < newIncoming
        · rw [if_pos h2]
          refine ⟨⟨?_, ?_, ?_⟩, rfl⟩
          · simp only [historyQuantitySum, List.map_append, List.sum_append,
              List.map_cons, List.map_nil, List.sum_cons, List.sum_nil]
            simp only [historyQuantitySum] at hsum
            rw [hsum]
            ring
          · exact historySorted_append _ hsorted hdl
          · intro e he
            rcases List.mem_append.mp he with he' | he'
            · exact hnonneg e he'
            · rw [List.mem_singleton.mp he']
              simp only
              linarith
        · by_cases h3 : newIncoming < ex.incoming
          · rw [if_neg (by exact fun h => absurd h h2), if_pos h3]
            have hstep1 : sortByDate ex.incomingHistory = ex.incomingHistory :=
              sortByDate_of_sorted hsorted
            have hrecalc : recalculateDecreasedHistory (some ex) ex.incoming newIncoming =
                (consumeHistory (ex.incoming - newIncoming) ex.incomingHistory).map
                  (fun e => { e with totalOrderQuantity := newIncoming }) := by
              simp only [recalculateDecreasedHistory, Option.map_some', Option.getD_some,
                hstep1]
            have hcsorted : HistorySortedByDate
                (consumeHistory (ex.incoming - newIncoming) ex.incomingHistory) :=
              consumeHistory_sorted _ _ hsorted
            have hmsorted : HistorySortedByDate
                ((consumeHistory (ex.incoming - newIncoming) ex.incomingHistory).map
                  (fun e => { e with totalOrderQuantity := newIncoming })) :=
              historySorted_settot _ hcsorted
            have houter : sortByDate (recalculateDecreasedHistory (some ex)
                ex.incoming newIncoming) =
                (consumeHistory (ex.incoming - newIncoming) ex.incomingHistory).map
                  (fun e => { e with totalOrderQuantity := newIncoming }) := by
              rw [hrecalc]
              exact sortByDate_of_sorted hmsorted
            refine ⟨⟨?_, ?_, ?_⟩, rfl⟩
            · simp only [houter]
              rw [historyQuantitySum_settot]
              rw [consumeHistory_sum _ _ hnonneg (by linarith) (by rw [hsum]; linarith)]
              rw [hsum]
              ring
            · simp only [houter]
              exact hmsorted
            · simp only [houter]
              exact historyNonneg_settot _ (consumeHistory_nonneg _ _ hnonneg)
          · rw [if_neg (by exact fun h => absurd h h2), if_neg h3]
            have heq : newIncoming = ex.incoming := le_antisymm (not_lt.mp h2) (not_lt.mp h3)
            refine ⟨⟨?_, hsorted, hnonneg⟩, rfl⟩
            rw [hsum, heq]
  · intro q
    simp only [ledgerStep]
    split_ifs with h
    · simpa using h
    · simpa using lt_of_not_le h

/-- Witness for c3_ledger_step_invariant: starting from no record with the
invariant hypotheses discharged vacuously, observing newIncoming = 5 does not
delete (5 is positive). -/
theorem c3_ledger_step_invariant_witness :
    (ledgerStep none 5 1000 = none ↔ (5 : ℚ) ≤ 0) :=
  (c3_ledger_step_invariant none 5 1000 (fun r h => by cases h) (fun r h => by cases h)).1

/-- FIFO consumption exactly as claim C4 words it: while some decrease
remains, an entry fully covered by the remaining decrease is dropped, the
first entry only partially covered has its quantity reduced by the remainder
and is kept, and all newer entries are kept unchanged. -/
def fifoConsumeSpec (decrease : ℚ) : List IncomingChange → List IncomingChange
  | [] => []
  | entry :: rest =>
    if decrease ≤ 0 then entry :: rest
    else if entry.quantity ≤ decrease then fifoConsumeSpec (decrease - entry.quantity) rest
    else { entry with quantity := entry.quantity - decrease } :: rest

/-- The source's consumption loop computes exactly the oldest-first FIFO
consumption described by the spec. -/
theorem consumeHistory_eq_fifoConsumeSpec (r : ℚ) (l : List IncomingChange) :
    consumeHistory r l = fifoConsumeSpec r l := by
  induction l generalizing r with
  | nil => rfl
  | cons a t ih =>
    simp only [consumeHistory, fifoConsumeSpec]
    split_ifs with h1 h2
    · rw [consumeHistory_nonpos r t h1]
    · exact ih (r - a.quantity)
    · rw [consumeHistory_nonpos 0 t le_rfl]

/-- C4: when the incoming quantity decreases, recalculateDecreasedHistory
consumes the decrease oldest-first through the date-sorted history exactly as
the FIFO description states, rewriting every retained entry's
totalOrderQuantity to the new incoming value; and on the spec's concrete
example, history [(q 5, d 1), (q 5, d 2)] decreased by 7 yields exactly
[(q 3, d 2)] with totalOrderQuantity 3, the new incoming total. -/
theorem c4_fifo_consumption (existing : TrackIncoming) (oldIncoming newIncoming : ℚ)
    (hsorted : HistorySortedByDate existing.incomingHistory)
    (hdec : newIncoming < oldIncoming) :
    recalculateDecreasedHistory (some existing) oldIncoming newIncoming =
      (fifoConsumeSpec (oldIncoming - newIncoming) existing.incomingHistory).map
        (fun entry => { entry with totalOrderQuantity := newIncoming }) ∧
    recalculateDecreasedHistory (some ⟨10, 0, [⟨1, 5, 10⟩, ⟨2, 5, 10⟩]⟩) 10 3 =
      [⟨2, 3, 3⟩] := by
  constructor
  · simp only [recalculateDecreasedHistory, Option.map_some', Option.getD_some,
      sortByDate_of_sorted hsorted, consumeHistory_eq_fifoConsumeSpec]
  · have hs : HistorySortedByDate [⟨1, 5, 10⟩, ⟨2, 5, 10⟩] := by
      simp only [HistorySortedByDate, List.pairwise_cons, List.mem_singleton,
        List.not_mem_nil, false_implies, implies_true, List.Pairwise.nil, and_true]
      intro e he
      rw [he]
      norm_num
    simp only [recalculateDecreasedHistory, Option.map_some', Option.getD_some,
      sortByDate_of_sorted hs]
    norm_num [consumeHistory]

/-- Witness for c4_fifo_consumption: the spec's concrete FIFO example itself,
with the sortedness and decrease hypotheses discharged there. -/
theorem c4_fifo_consumption_witness :
    recalculateDecreasedHistory (some ⟨10, 0, [⟨1, 5, 10⟩, ⟨2, 5, 10⟩]⟩) 10 3 =
      (fifoConsumeSpec (10 - 3) [⟨1, 5, 10⟩, ⟨2, 5, 10⟩]).map
        (fun entry => { entry with totalOrderQuantity := 3 }) :=
  (c4_fifo_consumption ⟨10, 0, [⟨1, 5, 10⟩, ⟨2, 5, 10⟩]⟩ 10 3
    (by
      simp only [HistorySortedByDate, List.pairwise_cons, List.mem_singleton,
        List.not_mem_nil, false_implies, implies_true, List.Pairwise.nil, and_true]
      intro e he
      rw [he]
      norm_num)
    (by norm_num)).1

/-- A catalog variant, from IVariantModel in src/models/product.model; only
the fields the verified claims read are kept (id, available, incoming). -/
structure IVariantModel where
  id : ℕ
  available : ℚ
  incoming : ℚ
deriving Repr

/-- A catalog product, from IProductModel in src/models/product.model;
display fields are omitted. -/
structure IProductModel where
  id : ℕ
  variants : List IVariantModel
deriving Repr

/-- One order line fact, from orderModel in src/models/order.model; createdAt
is a unix-millisecond timestamp. -/
structure orderModel where
  variantId : ℕ
  createdAt : ℤ
  quantity : ℚ
deriving Repr

/-- The per-variant sales object built by createSalesData; display fields are
omitted. -/
structure SalesData where
  variantId : ℕ
  productId : ℕ
  totalSales : ℚ
  perDaySales : ℚ
deriving Repr

/-- Modelled JS Date arithmetic: the UTC midnight of a unix-millisecond
timestamp is the timestamp with its nonnegative remainder modulo one day
removed. -/
def utcMidnight (now : ℤ) : ℤ := now - now % msPerDay

/-- Shallow embedding of getCutoffDateUTC from
src/src/restock-prediction/restock-prediction.service.ts (lines 78-87):
Date.UTC of the current UTC calendar day shifted back by (days - 1) equals
the current UTC midnight minus (days - 1) whole days of milliseconds. -/
def getCutoffDateUTC (now : ℤ) (days : ℕ) : ℤ :=
  utcMidnight now - ((days : ℤ) - 1) * msPerDay

/-- One iteration of the order loop of calculateSalesForPeriod (lines
272-279): an order at or after the cutoff with a truthy (nonzero) variantId
adds its quantity to that variant's running total; the JS Map is modelled as
a function to optional totals and get-or-zero as getD 0. -/
def salesLoopStep (cutoffTime : ℤ) (salesByVariant : ℕ → Option ℚ)
    (order : orderModel) : ℕ → Option ℚ :=
  if cutoffTime ≤ order.createdAt ∧ order.variantId ≠ 0 then
    fun k =>
      if k = order.variantId then
        some ((salesByVariant order.variantId).getD 0 + order.quantity)
      else salesByVariant k
  else salesByVariant

/-- The salesByVariant map after the order loop of calculateSalesForPeriod. -/
def salesByVariantLoop (orders : List orderModel) (cutoffTime : ℤ) : ℕ → Option ℚ :=
  orders.foldl (salesLoopStep cutoffTime) (fun _ => none)

/-- One iteration of the inner variant loop of createSalesData (lines
308-328): the variant's id is mapped to its totals, with totalSales read
from the sales map or zero and perDaySales the division by the requested
window length. -/
def salesDataStep (salesByVariant : ℕ → Option ℚ) (days : ℕ) (productId : ℕ)
    (m : ℕ → Option SalesData) (variant : IVariantModel) : ℕ → Option SalesData :=
  let totalSales := (salesByVariant variant.id).getD 0
  let perDaySales := totalSales / (days : ℚ)
  fun k =>
    if k = variant.id then
      some { variantId := variant.id, productId := productId,
             totalSales := totalSales, perDaySales := perDaySales }
    else m k

/-- Shallow embedding of createSalesData (lines 308-328). -/
def createSalesData (products : List IProductModel) (salesByVariant : ℕ → Option ℚ)
    (days : ℕ) : ℕ → Option SalesData :=
  products.foldl
    (fun salesDataMap product =>
      product.variants.foldl (salesDataStep salesByVariant days product.id) salesDataMap)
    (fun _ => none)

/-- Shallow embedding of calculateSalesForPeriod (lines 267-282). -/
def calculateSalesForPeriod (products : List IProductModel) (orders : List orderModel)
    (days : ℕ) (now : ℤ) : ℕ → Option SalesData :=
  let cutoffTime := getCutoffDateUTC now days
  createSalesData products (salesByVariantLoop orders cutoffTime) days

/-- Spec-side description for claim C5: the sum of quantities of the order
facts for a given variant whose createdAt is at or after the cutoff. -/
def salesSum (orders : List orderModel) (cutoffTime : ℤ) (v : ℕ) : ℚ :=
  ((orders.filter (fun o => o.variantId = v ∧ cutoffTime ≤ o.createdAt)).map
    (·.quantity)).sum

/-- Splitting the spec-side quantity sum at the head order fact. -/
theorem salesSum_cons (o : orderModel) (os : List orderModel) (cutoffTime : ℤ) (v : ℕ) :
    salesSum (o :: os) cutoffTime v =
      (if o.variantId = v ∧ cutoffTime ≤ o.createdAt then o.quantity else 0) +
        salesSum os cutoffTime v := by
  simp only [salesSum, List.filter_cons, decide_eq_true_eq]
  split_ifs with h
  · simp [List.map_cons, List.sum_cons]
  · simp

/-- One step of the order loop adds the head order fact's contribution at
every nonzero variant key. -/
theorem salesLoopStep_getD (cutoffTime : ℤ) (v : ℕ) (hv : v ≠ 0)
    (init : ℕ → Option ℚ) (o : orderModel) :
    ((salesLoopStep cutoffTime init o) v).getD 0 =
      (init v).getD 0 +
        (if o.variantId = v ∧ cutoffTime ≤ o.createdAt then o.quantity else 0) := by
  simp only [salesLoopStep]
  by_cases hc : cutoffTime ≤ o.createdAt ∧ o.variantId ≠ 0
  · rw [if_pos hc]
    by_cases hkv : v = o.variantId
    · rw [if_pos hkv, if_pos ⟨hkv.symm, hc.1⟩, ← hkv, Option.getD_some]
    · rw [if_neg hkv, if_neg (fun hcon => hkv hcon.1.symm), add_zero]
  · rw [if_neg hc]
    have hno : ¬(o.variantId = v ∧ cutoffTime ≤ o.createdAt) := by
      rintro ⟨h1, h2⟩
      exact hc ⟨h2, fun h0 => hv (h1.symm.trans h0)⟩
    rw [if_neg hno, add_zero]

/-- The order loop computes, at every nonzero variant key, the spec-side
filtered quantity sum on top of whatever the initial map held. -/
theorem salesLoop_getD (cutoffTime : ℤ) (v : ℕ) (hv : v ≠ 0) :
    ∀ (orders : List orderModel) (init : ℕ → Option ℚ),
      ((orders.foldl (salesLoopStep cutoffTime) init) v).getD 0 =
        (init v).getD 0 + salesSum orders cutoffTime v := by
  intro orders
  induction orders with
  | nil =>
    intro init
    simp [salesSum]
  | cons o os ih =>
    intro init
    rw [List.foldl_cons, ih (salesLoopStep cutoffTime init o),
      salesLoopStep_getD cutoffTime v hv init o, salesSum_cons]
    ring

/-- The inner variant loop of createSalesData leaves keys absent from the
variant list untouched. -/
theorem salesDataFold_not_mem (salesByVariant : ℕ → Option ℚ) (days : ℕ)
    (productId : ℕ) (v : ℕ) :
    ∀ (variants : List IVariantModel) (init : ℕ → Option SalesData),
      (∀ vr ∈ variants, vr.id ≠ v) →
      (variants.foldl (salesDataStep salesByVariant days productId) init) v = init v := by
  intro variants
  induction variants with
  | nil =>
    intro init _
    rfl
  | cons a t ih =>
    intro init h
    rw [List.foldl_cons, ih _ (fun vr hvr => h vr (List.mem_cons_of_mem a hvr))]
    simp only [salesDataStep]
    rw [if_neg (fun hkv => h a (List.mem_cons_self a t) hkv.symm)]

/-- The inner variant loop of createSalesData maps every listed variant id to
its totals: totalSales from the sales map or zero, perDaySales the division
by the window length. -/
theorem salesDataFold_mem (salesByVariant : ℕ → Option ℚ) (days : ℕ)
    (productId : ℕ) (v : ℕ) :
    ∀ (variants : List IVariantModel) (init : ℕ → Option SalesData),
      (∃ vr ∈ variants, vr.id = v) →
      ∃ s, (variants.foldl (salesDataStep salesByVariant days productId) init) v = some s ∧
        s.variantId = v ∧ s.totalSales = (salesByVariant v).getD 0 ∧
        s.perDaySales = (salesByVariant v).getD 0 / (days : ℚ) := by
  intro variants
  induction variants with
  | nil =>
    rintro init ⟨vr, hvr, _⟩
    exact absurd hvr (List.not_mem_nil vr)
  | cons a t ih =>
    intro init hex
    rw [List.foldl_cons]
    by_cases hmem : ∃ vr ∈ t, vr.id = v
    · exact ih _ hmem
    · obtain ⟨vr, hvr, hid⟩ := hex
      rcases List.mem_cons.mp hvr with heq | hmem'
      · have hnot : ∀ x ∈ t, x.id ≠ v := fun x hx hxv => hmem ⟨x, hx, hxv⟩
        rw [salesDataFold_not_mem salesByVariant days productId v t _ hnot]
        have hav : a.id = v := heq ▸ hid
        simp only [salesDataStep]
        rw [if_pos hav.symm]
        exact ⟨_, rfl, hav, by rw [hav], by rw [hav]⟩
      · exact absurd ⟨vr, hmem', hid⟩ hmem

/-- The outer product loop of createSalesData leaves keys absent from the
whole catalog untouched. -/
theorem createSalesDataFold_not_mem (salesByVariant : ℕ → Option ℚ) (days : ℕ) (v : ℕ) :
    ∀ (products : List IProductModel) (init : ℕ → Option SalesData),
      (∀ p ∈ products, ∀ vr ∈ p.variants, vr.id ≠ v) →
      (products.foldl
        (fun salesDataMap product =>
          product.variants.foldl (salesDataStep salesByVariant days product.id) salesDataMap)
        init) v = init v := by
  intro products
  induction products with
  | nil =>
    intro init _
    rfl
  | cons p ps ih =>
    intro init h
    rw [List.foldl_cons, ih _ (fun x hx => h x (List.mem_cons_of_mem p hx))]
    exact salesDataFold_not_mem salesByVariant days p.id v p.variants init
      (h p (List.mem_cons_self p ps))

/-- The outer product loop of createSalesData maps every catalog variant id
to its totals. -/
theorem createSalesDataFold_mem (salesByVariant : ℕ → Option ℚ) (days : ℕ) (v : ℕ) :
    ∀ (products : List IProductModel) (init : ℕ → Option SalesData),
      (∃ p ∈ products, ∃ vr ∈ p.variants, vr.id = v) →
      ∃ s, (products.foldl
        (fun salesDataMap product =>
          product.variants.foldl (salesDataStep salesByVariant days product.id) salesDataMap)
        init) v = some s ∧
        s.variantId = v ∧ s.totalSales = (salesByVariant v).getD 0 ∧
        s.perDaySales = (salesByVariant v).getD 0 / (days : ℚ) := by
  intro products
  induction products with
  | nil =>
    rintro init ⟨p, hp, _⟩
    exact absurd hp (List.not_mem_nil p)
  | cons p ps ih =>
    intro init hex
    rw [List.foldl_cons]
    by_cases hmem : ∃ x ∈ ps, ∃ vr ∈ x.variants, vr.id = v
    · exact ih _ hmem
    · obtain ⟨x, hx, vr, hvr, hid⟩ := hex
      rcases List.mem_cons.mp hx with heq | hmem'
      · have hnot : ∀ y ∈ ps, ∀ w ∈ y.variants, w.id ≠ v :=
          fun y hy w hw hwv => hmem ⟨y, hy, w, hw, hwv⟩
        rw [createSalesDataFold_not_mem salesByVariant days v ps _ hnot]
        exact salesDataFold_mem salesByVariant days p.id v p.variants init
          ⟨vr, heq ▸ hvr, hid⟩
      · exact absurd ⟨x, hmem', vr, hvr, hid⟩ hmem

/-- C5: for every window length, catalog and order-fact list, the per-window
summary of a catalog variant (with the nonzero id the remote catalog always
supplies) records totalSales equal to the sum of the quantities of that
variant's facts dated at or after the cutoff, where the cutoff is the UTC
midnight of now minus (windowDays - 1) whole days, and perDaySales equal to
totalSales divided by the window length (zero in the zero-orders case); a
variant absent from the catalog gets no summary. -/
theorem c5_sales_summary (products : List IProductModel) (orders : List orderModel)
    (days : ℕ) (now : ℤ) (hdays : 0 < days) :
    (∀ v, v ≠ 0 → (∃ p ∈ products, ∃ vr ∈ p.variants, vr.id = v) →
      ∃ s, calculateSalesForPeriod products orders days now v = some s ∧
        s.variantId = v ∧
        s.totalSales = salesSum orders (utcMidnight now - ((days : ℤ) - 1) * msPerDay) v ∧
        s.perDaySales = s.totalSales / (days : ℚ)) ∧
    (∀ v, (∀ p ∈ products, ∀ vr ∈ p.variants, vr.id ≠ v) →
      calculateSalesForPeriod products orders days now v = none) := by
  have hloop : ∀ v, v ≠ 0 →
      ((salesByVariantLoop orders (getCutoffDateUTC now days)) v).getD 0 =
        salesSum orders (getCutoffDateUTC now days) v := by
    intro v hv
    rw [salesByVariantLoop, salesLoop_getD (getCutoffDateUTC now days) v hv orders]
    simp
  constructor
  · intro v hv hex
    obtain ⟨s, hs, hsv, hst, hsp⟩ := createSalesDataFold_mem
      (salesByVariantLoop orders (getCutoffDateUTC now days)) days v products
      (fun _ => none) hex
    refine ⟨s, hs, hsv, ?_, ?_⟩
    · rw [hst, hloop v hv]
      rfl
    · rw [hsp, hst]
  · intro v hnot
    exact createSalesDataFold_not_mem
      (salesByVariantLoop orders (getCutoffDateUTC now days)) days v products
      (fun _ => none) hnot

/-- Witness for c5_sales_summary: a one-product catalog yields no summary for
an id outside the catalog. -/
theorem c5_sales_summary_witness :
    calculateSalesForPeriod [⟨1, [⟨10, 5, 0⟩]⟩] [] 7 0 99 = none :=
  (c5_sales_summary [⟨1, [⟨10, 5, 0⟩]⟩] [] 7 0 (by norm_num)).2 99
    (by
      intro p hp vr hvr
      simp only [List.mem_singleton] at hp
      subst hp
      simp only [List.mem_singleton] at hvr
      subst hvr
      norm_num)

/-- The per-variant prediction record, from RestockPredictionModel in
src/models/restock-prediction.model; display-only fields (image, names, sku,
status) are omitted. -/
structure RestockPredictionModel where
  productId : ℕ
  variantId : ℕ
  sevenDaysRangeSales : ℚ
  fourteenDaysRangeSales : ℚ
  thirtyDaysRangeSales : ℚ
  perDaySoldSevenDaysRange : ℚ
  perDaySoldFourteenDaysRange : ℚ
  perDaySoldThirtyDaysRange : ℚ
  availableStock : ℚ
  incomingStock : ℚ
  totalInventory : ℚ
  remainingDaysToReachIncomingStock : ℤ
  recommendedRestockSevenDaysRange : ℚ
  recommendedRestockFourteenDaysRange : ℚ
  recommendedRestockThirtyDaysRange : ℚ
  recommendedAverageStock : ℚ
  urgencyLevel : UrgencyLevelEnum

/-- The pre-defined default sales object of generatePredictions (lines
337-340); the id fields it never carries are zeroed. -/
def defaultSalesData : SalesData :=
  { variantId := 0, productId := 0, totalSales := 0, perDaySales := 0 }

/-- Shallow embedding of createPrediction (lines 368-422).  The ledger reads
performed through getRemainingDaysForIncoming are resolved against an
explicit ledger state (variant id to stored record) at an explicit now; the
JS or-zero guards on available and incoming are the identity on a rational
already holding the stored number. -/
def createPrediction (product : IProductModel) (variant : IVariantModel)
    (sevenDaysRange fourteenDaysRange thirtyDaysRange : SalesData)
    (predictionDays : ℚ) (ledger : ℕ → Option TrackIncoming) (now : ℤ) :
    RestockPredictionModel :=
  let availableStock := variant.available
  let incomingStock := variant.incoming
  let totalInventory := availableStock + incomingStock
  let lk := getRemainingDaysForIncoming (ledger variant.id) now
  let recommendedRestockSevenDaysRange :=
    calculateRestockQuantity sevenDaysRange.perDaySales predictionDays
      availableStock incomingStock lk.1 lk.2
  let recommendedRestockFourteenDaysRange :=
    calculateRestockQuantity fourteenDaysRange.perDaySales predictionDays
      availableStock incomingStock lk.1 lk.2
  let recommendedRestockThirtyDaysRange :=
    calculateRestockQuantity thirtyDaysRange.perDaySales predictionDays
      availableStock incomingStock lk.1 lk.2
  let remainingDaysToReachIncomingStock := if 0 < incomingStock then lk.1 else 0
  let recommendedAverageStock :=
    (recommendedRestockSevenDaysRange + recommendedRestockFourteenDaysRange +
      recommendedRestockThirtyDaysRange) / 3
  { productId := product.id
    variantId := variant.id
    sevenDaysRangeSales := sevenDaysRange.totalSales
    fourteenDaysRangeSales := fourteenDaysRange.totalSales
    thirtyDaysRangeSales := thirtyDaysRange.totalSales
    perDaySoldSevenDaysRange := sevenDaysRange.perDaySales
    perDaySoldFourteenDaysRange := fourteenDaysRange.perDaySales
    perDaySoldThirtyDaysRange := thirtyDaysRange.perDaySales
    availableStock := availableStock
    incomingStock := incomingStock
    totalInventory := totalInventory
    remainingDaysToReachIncomingStock := remainingDaysToReachIncomingStock
    recommendedRestockSevenDaysRange := recommendedRestockSevenDaysRange
    recommendedRestockFourteenDaysRange := recommendedRestockFourteenDaysRange
    recommendedRestockThirtyDaysRange := recommendedRestockThirtyDaysRange
    recommendedAverageStock := recommendedAverageStock
    urgencyLevel := calculateUrgencyLevel availableStock incomingStock
      sevenDaysRange.perDaySales }

/-- Shallow embedding of generatePredictions (lines 333-364): one prediction
is appended per variant of each product, each built from that variant's
per-window sales object or the default. -/
def generatePredictions (products : List IProductModel)
    (sevenDaysRangeSales fourteenDaysRangeSales thirtyDaysRangeSales : ℕ → Option SalesData)
    (predictionDays : ℚ) (ledger : ℕ → Option TrackIncoming) (now : ℤ) :
    List RestockPredictionModel :=
  products.foldl
    (fun predictions product =>
      product.variants.foldl
        (fun preds variant =>
          preds ++ [createPrediction product variant
            ((sevenDaysRangeSales variant.id).getD defaultSalesData)
            ((fourteenDaysRangeSales variant.id).getD defaultSalesData)
            ((thirtyDaysRangeSales variant.id).getD defaultSalesData)
            predictionDays ledger now])
        predictions)
    []

/-- Outcome of a collaborator service call as the prediction engine sees it:
either a payload or the error object produced by the catch wrappers in
fetchData. -/
inductive ServiceResponse (α : Type) where
  | ok (val : α)
  | err

/-- Result of the exported entry point: a returned list or a raised
InternalServerErrorException. -/
inductive RunOutcome (α : Type) where
  | ok (val : α)
  | raised

/-- Shallow embedding of fetchData (lines 174-230): a products error yields
(null, null); an orders error degrades to an empty order list while keeping
the products. -/
def fetchData (productsResponse : ServiceResponse (List IProductModel))
    (ordersResponse : ServiceResponse (List orderModel)) :
    Option (List IProductModel) × Option (List orderModel) :=
  match productsResponse with
  | .err => (none, none)
  | .ok products =>
    match ordersResponse with
    | .err => (some products, some [])
    | .ok orders => (some products, some orders)

/-- Shallow embedding of generateRestockPredictions (lines 30-75): null or
empty products short-circuit to an empty list, otherwise the three window
summaries are computed and the predictions list is returned.  None of the
modelled branches throws, so the embedded happy path never yields raised. -/
def generateRestockPredictions (productsResponse : ServiceResponse (List IProductModel))
    (ordersResponse : ServiceResponse (List orderModel)) (predictionDays : ℚ)
    (ledger : ℕ → Option TrackIncoming) (now : ℤ) :
    RunOutcome (List RestockPredictionModel) :=
  match fetchData productsResponse ordersResponse with
  | (none, _) => .ok []
  | (some products, ordersOpt) =>
    if products.isEmpty then .ok []
    else
      let validOrders := ordersOpt.getD []
      let sevenDaysRangeSales := calculateSalesForPeriod products validOrders 7 now
      let fourteenDaysRangeSales := calculateSalesForPeriod products validOrders 14 now
      let thirtyDaysRangeSales := calculateSalesForPeriod products validOrders 30 now
      .ok (generatePredictions products sevenDaysRangeSales fourteenDaysRangeSales
        thirtyDaysRangeSales predictionDays ledger now)

/-- Any value the inner variant loop of createSalesData stores at a key
carries that key's or-zero total and its division by the window length. -/
theorem salesDataFold_some_fields (salesByVariant : ℕ → Option ℚ) (days : ℕ)
    (productId : ℕ) (v : ℕ) :
    ∀ (variants : List IVariantModel) (init : ℕ → Option SalesData),
      (∀ s, init v = some s → s.totalSales = (salesByVariant v).getD 0 ∧
        s.perDaySales = (salesByVariant v).getD 0 / (days : ℚ)) →
      ∀ s, (variants.foldl (salesDataStep salesByVariant days productId) init) v = some s →
        s.totalSales = (salesByVariant v).getD 0 ∧
        s.perDaySales = (salesByVariant v).getD 0 / (days : ℚ) := by
  intro variants
  induction variants with
  | nil =>
    intro init h
    exact h
  | cons a t ih =>
    intro init h
    rw [List.foldl_cons]
    refine ih _ ?_
    intro s hs
    simp only [salesDataStep] at hs
    by_cases hkv : v = a.id
    · rw [if_pos hkv] at hs
      rw [Option.some_inj] at hs
      subst hs
      exact ⟨by rw [hkv], by rw [hkv]⟩
    · rw [if_neg hkv] at hs
      exact h s hs

/-- Any value createSalesData stores at a key carries that key's or-zero
total and its division by the window length. -/
theorem createSalesData_some_fields (salesByVariant : ℕ → Option ℚ) (days : ℕ) (v : ℕ) :
    ∀ (products : List IProductModel) (init : ℕ → Option SalesData),
      (∀ s, init v = some s → s.totalSales = (salesByVariant v).getD 0 ∧
        s.perDaySales = (salesByVariant v).getD 0 / (days : ℚ)) →
      ∀ s, (products.foldl
        (fun salesDataMap product =>
          product.variants.foldl (salesDataStep salesByVariant days product.id) salesDataMap)
        init) v = some s →
        s.totalSales = (salesByVariant v).getD 0 ∧
        s.perDaySales = (salesByVariant v).getD 0 / (days : ℚ) := by
  intro products
  induction products with
  | nil =>
    intro init h
    exact h
  | cons p ps ih =>
    intro init h
    rw [List.foldl_cons]
    exact ih _ (salesDataFold_some_fields salesByVariant days p.id v p.variants init h)

/-- With an empty order list every window summary read with the default
fallback has zero totalSales and zero perDaySales. -/
theorem salesForPeriod_zero_orders (products : List IProductModel) (days : ℕ)
    (now : ℤ) (v : ℕ) :
    (((calculateSalesForPeriod products [] days now) v).getD defaultSalesData).totalSales = 0 ∧
    (((calculateSalesForPeriod products [] days now) v).getD defaultSalesData).perDaySales = 0 := by
  cases h : calculateSalesForPeriod products [] days now v with
  | none => simp [h, defaultSalesData]
  | some s =>
    have hfields := createSalesData_some_fields
      (salesByVariantLoop [] (getCutoffDateUTC now days)) days v products
      (fun _ => none) (by intro s hs; cases hs) s h
    have hz : ((salesByVariantLoop [] (getCutoffDateUTC now days)) v).getD 0 = 0 := rfl
    rw [hz] at hfields
    simp only [Option.getD_some]
    exact ⟨hfields.1, by rw [hfields.2, zero_div]⟩

/-- The inner variant loop of generatePredictions appends exactly one
prediction per variant. -/
theorem genPredVariants_length (product : IProductModel)
    (s7 s14 s30 : ℕ → Option SalesData) (pd : ℚ)
    (ledger : ℕ → Option TrackIncoming) (now : ℤ) :
    ∀ (variants : List IVariantModel) (init : List RestockPredictionModel),
      (variants.foldl
        (fun preds variant =>
          preds ++ [createPrediction product variant
            ((s7 variant.id).getD defaultSalesData)
            ((s14 variant.id).getD defaultSalesData)
            ((s30 variant.id).getD defaultSalesData) pd ledger now])
        init).length = init.length + variants.length := by
  intro variants
  induction variants with
  | nil =>
    intro init
    simp
  | cons a t ih =>
    intro init
    rw [List.foldl_cons, ih]
    simp only [List.length_append, List.length_cons, List.length_nil]
    omega

/-- generatePredictions emits exactly one prediction per catalog variant. -/
theorem generatePredictions_length (s7 s14 s30 : ℕ → Option SalesData) (pd : ℚ)
    (ledger : ℕ → Option TrackIncoming) (now : ℤ) :
    ∀ (products : List IProductModel) (init : List RestockPredictionModel),
      (products.foldl
        (fun predictions product =>
          product.variants.foldl
            (fun preds variant =>
              preds ++ [createPrediction product variant
                ((s7 variant.id).getD defaultSalesData)
                ((s14 variant.id).getD defaultSalesData)
                ((s30 variant.id).getD defaultSalesData) pd ledger now])
            predictions)
        init).length = init.length + (products.map (fun p => p.variants.length)).sum := by
  intro products
  induction products with
  | nil =>
    intro init
    simp
  | cons p ps ih =>
    intro init
    rw [List.foldl_cons, ih, genPredVariants_length]
    simp only [List.map_cons, List.sum_cons]
    omega

/-- Every element the inner variant loop emits is either from the initial
accumulator or the prediction of one of the listed variants. -/
theorem genPredVariants_mem (product : IProductModel)
    (s7 s14 s30 : ℕ → Option SalesData) (pd : ℚ)
    (ledger : ℕ → Option TrackIncoming) (now : ℤ) :
    ∀ (variants : List IVariantModel) (init : List RestockPredictionModel)
      (x : RestockPredictionModel),
      x ∈ variants.foldl
        (fun preds variant =>
          preds ++ [createPrediction product variant
            ((s7 variant.id).getD defaultSalesData)
            ((s14 variant.id).getD defaultSalesData)
            ((s30 variant.id).getD defaultSalesData) pd ledger now])
        init →
      x ∈ init ∨ ∃ v ∈ variants, x = createPrediction product v
        ((s7 v.id).getD defaultSalesData) ((s14 v.id).getD defaultSalesData)
        ((s30 v.id).getD defaultSalesData) pd ledger now := by
  intro variants
  induction variants with
  | nil =>
    intro init x hx
    exact Or.inl hx
  | cons a t ih =>
    intro init x hx
    rw [List.foldl_cons] at hx
    rcases ih _ x hx with hin | ⟨v, hv, hxv⟩
    · rcases List.mem_append.mp hin with hin' | hin'
      · exact Or.inl hin'
      · exact Or.inr ⟨a, List.mem_cons_self a t, List.mem_singleton.mp hin'⟩
    · exact Or.inr ⟨v, List.mem_cons_of_mem a hv, hxv⟩

/-- Every prediction generatePredictions emits is the prediction of one of
the catalog variants. -/
theorem generatePredictions_mem (s7 s14 s30 : ℕ → Option SalesData) (pd : ℚ)
    (ledger : ℕ → Option TrackIncoming) (now : ℤ) :
    ∀ (products : List IProductModel) (init : List RestockPredictionModel)
      (x : RestockPredictionModel),
      x ∈ products.foldl
        (fun predictions product =>
          product.variants.foldl
            (fun preds variant =>
              preds ++ [createPrediction product variant
                ((s7 variant.id).getD defaultSalesData)
                ((s14 variant.id).getD defaultSalesData)
                ((s30 variant.id).getD defaultSalesData) pd ledger now])
            predictions)
        init →
      x ∈ init ∨ ∃ p ∈ products, ∃ v ∈ p.variants, x = createPrediction p v
        ((s7 v.id).getD defaultSalesData) ((s14 v.id).getD defaultSalesData)
        ((s30 v.id).getD defaultSalesData) pd ledger now := by
  intro products
  induction products with
  | nil =>
    intro init x hx
    exact Or.inl hx
  | cons p ps ih =>
    intro init x hx
    rw [List.foldl_cons] at hx
    rcases ih _ x hx with hin | ⟨p', hp', v, hv, hxv⟩
    · rcases genPredVariants_mem p s7 s14 s30 pd ledger now p.variants init x hin with
        hin' | ⟨v, hv, hxv⟩
      · exact Or.inl hin'
      · exact Or.inr ⟨p, List.mem_cons_self p ps, v, hv, hxv⟩
    · exact Or.inr ⟨p', List.mem_cons_of_mem p hp', v, hv, hxv⟩

/-- C6 counterexample: the claim asserts a missing credential or failed
catalog fetch surfaces as an explicit failure to the caller; in the source a
products-fetch error is swallowed by the catch wrapper, fetchData returns
null products, and generateRestockPredictions returns an empty list instead
of raising. -/
theorem c6_counterexample :
    generateRestockPredictions .err (.ok [⟨10, 86400000, 3⟩]) 15 (fun _ => none) 0 =
      .ok [] := rfl

/-- C6 (amended): when only the order fetch fails the engine degrades rather
than raises: the run equals the run with an explicitly empty order list and
returns one prediction per catalog variant, each with zero sales in every
window and stock-based urgency (the urgency of its stock at zero velocity);
whereas a missing credential or failed catalog fetch also does not raise but
yields an empty prediction list. -/
theorem c6_amended_error_handling :
    (∀ (products : List IProductModel) (predictionDays : ℚ)
        (ledger : ℕ → Option TrackIncoming) (now : ℤ),
      products ≠ [] →
      (generateRestockPredictions (.ok products) .err predictionDays ledger now =
        generateRestockPredictions (.ok products) (.ok []) predictionDays ledger now) ∧
      ∃ l, generateRestockPredictions (.ok products) .err predictionDays ledger now =
          .ok l ∧
        l.length = (products.map (fun p => p.variants.length)).sum ∧
        ∀ pred ∈ l,
          pred.sevenDaysRangeSales = 0 ∧ pred.fourteenDaysRangeSales = 0 ∧
          pred.thirtyDaysRangeSales = 0 ∧ pred.perDaySoldSevenDaysRange = 0 ∧
          pred.perDaySoldFourteenDaysRange = 0 ∧ pred.perDaySoldThirtyDaysRange = 0 ∧
          pred.urgencyLevel =
            calculateUrgencyLevel pred.availableStock pred.incomingStock 0) ∧
    (∀ (ordersResponse : ServiceResponse (List orderModel)) (predictionDays : ℚ)
        (ledger : ℕ → Option TrackIncoming) (now : ℤ),
      generateRestockPredictions .err ordersResponse predictionDays ledger now = .ok []) := by
  constructor
  · intro products predictionDays ledger now hne
    obtain ⟨p, ps, rfl⟩ := List.exists_cons_of_ne_nil hne
    refine ⟨rfl, _, rfl, ?_, ?_⟩
    · simpa using generatePredictions_length
        (calculateSalesForPeriod (p :: ps) [] 7 now)
        (calculateSalesForPeriod (p :: ps) [] 14 now)
        (calculateSalesForPeriod (p :: ps) [] 30 now)
        predictionDays ledger now (p :: ps) []
    · intro pred hpred
      rcases generatePredictions_mem
          (calculateSalesForPeriod (p :: ps) [] 7 now)
          (calculateSalesForPeriod (p :: ps) [] 14 now)
          (calculateSalesForPeriod (p :: ps) [] 30 now)
          predictionDays ledger now (p :: ps) [] pred hpred with hin | ⟨p', hp', v, hv, rfl⟩
      · cases hin
      · obtain ⟨h7t, h7p⟩ := salesForPeriod_zero_orders (p :: ps) 7 now v.id
        obtain ⟨h14t, h14p⟩ := salesForPeriod_zero_orders (p :: ps) 14 now v.id
        obtain ⟨h30t, h30p⟩ := salesForPeriod_zero_orders (p :: ps) 30 now v.id
        refine ⟨h7t, h14t, h30t, h7p, h14p, h30p, ?_⟩
        show calculateUrgencyLevel v.available v.incoming
          (((calculateSalesForPeriod (p :: ps) [] 7 now) v.id).getD
            defaultSalesData).perDaySales = _
        rw [h7p]
        rfl
  · intro ordersResponse predictionDays ledger now
    cases ordersResponse <;> rfl

/-- Witness for c6_amended_error_handling: for a concrete one-variant catalog
the order-fetch-failed run equals the empty-orders run. -/
theorem c6_amended_error_handling_witness :
    generateRestockPredictions (.ok [⟨1, [⟨10, 5, 0⟩]⟩]) .err 15 (fun _ => none) 0 =
      generateRestockPredictions (.ok [⟨1, [⟨10, 5, 0⟩]⟩]) (.ok []) 15 (fun _ => none) 0 :=
  (c6_amended_error_handling.1 [⟨1, [⟨10, 5, 0⟩]⟩] 15 (fun _ => none) 0
    (List.cons_ne_nil _ _)).1

/-- One scripted remote answer to a GraphQL call: success, an application
level THROTTLED error in the body (with optional retry-after header), an
HTTP 429 rejection (with optional retry-after header), or any other error. -/
inductive GraphQLResponse where
  | success
  | throttled (retryAfter : Option ℕ)
  | http429 (retryAfter : Option ℕ)
  | otherError

/-- Observable trace of one retrying request: how many calls were made, the
backoff waits inserted before each retry in milliseconds, and whether the
request resolved or raised. -/
structure RetryTrace where
  calls : ℕ
  delays : List ℕ
  outcome : RunOutcome Unit

namespace ProductService

/-- Retry constants of src/src/products/product.service.ts (lines 10-15). -/
def MAX_RETRIES : ℕ := 5

/-- Initial backoff delay in milliseconds. -/
def INITIAL_RETRY_DELAY : ℕ := 2000

/-- Backoff delay cap in milliseconds. -/
def MAX_RETRY_DELAY : ℕ := 60000

/-- The exponential backoff of makeGraphQLRequest (lines 71-74 and 139-142). -/
def backoffDelay (retryCount : ℕ) : ℕ :=
  min (INITIAL_RETRY_DELAY * 2 ^ retryCount) MAX_RETRY_DELAY

/-- Shallow embedding of makeGraphQLRequest from
src/src/products/product.service.ts (lines 30-155), consuming one scripted
response per call.  A throttled body with retry budget left waits the server
hint (seconds times 1000 plus a one second buffer) or the capped exponential
backoff and recurses with retryCount + 1; an HTTP 429 does the same without
the buffer; any other error, or a throttle after the budget is spent,
raises.  The call-limit-header pacing path (lines 100-126) only fires when
that header is present and is not scripted here.  An empty script means the
remote never answers; no claim exercises that case. -/
def makeGraphQLRequest : List GraphQLResponse → ℕ → RetryTrace
  | [], _ => { calls := 0, delays := [], outcome := .raised }
  | resp :: rest, retryCount =>
    match resp with
    | .success => { calls := 1, delays := [], outcome := .ok () }
    | .otherError => { calls := 1, delays := [], outcome := .raised }
    | .throttled retryAfter =>
      if retryCount < MAX_RETRIES then
        let waitTime :=
          match retryAfter with
          | some s => s * 1000 + 1000
          | none => backoffDelay retryCount
        let t := makeGraphQLRequest rest (retryCount + 1)
        { calls := t.calls + 1, delays := waitTime :: t.delays, outcome := t.outcome }
      else { calls := 1, delays := [], outcome := .raised }
    | .http429 retryAfter =>
      if retryCount < MAX_RETRIES then
        let delay :=
          match retryAfter with
          | some s => s * 1000
          | none => backoffDelay retryCount
        let t := makeGraphQLRequest rest (retryCount + 1)
        { calls := t.calls + 1, delays := delay :: t.delays, outcome := t.outcome }
      else { calls := 1, delays := [], outcome := .raised }

end ProductService

namespace OrderService

/-- Retry constants of src/src/orders/order.service.ts (lines 88-89). -/
def MAX_GRAPHQL_RETRIES : ℕ := 5

/-- Base backoff delay in milliseconds. -/
def GRAPHQL_RETRY_BASE_DELAY : ℕ := 1000

/-- Shallow embedding of makeGraphQLRequest from
src/src/orders/order.service.ts (lines 359-413), consuming one scripted
response per call.  Only HTTP 429 is retried, waiting the server hint
(seconds times 1000 plus 500) or the uncapped exponential backoff; GraphQL
body errors, throttled or not, raise immediately. -/
def makeGraphQLRequest : List GraphQLResponse → ℕ → RetryTrace
  | [], _ => { calls := 0, delays := [], outcome := .raised }
  | resp :: rest, retryCount =>
    match resp with
    | .success => { calls := 1, delays := [], outcome := .ok () }
    | .otherError => { calls := 1, delays := [], outcome := .raised }
    | .throttled _ => { calls := 1, delays := [], outcome := .raised }
    | .http429 retryAfter =>
      if retryCount < MAX_GRAPHQL_RETRIES then
        let retryAfterMs :=
          match retryAfter with
          | some s => s * 1000 + 500
          | none => GRAPHQL_RETRY_BASE_DELAY * 2 ^ retryCount
        let t := makeGraphQLRequest rest (retryCount + 1)
        { calls := t.calls + 1, delays := retryAfterMs :: t.delays, outcome := t.outcome }
      else { calls := 1, delays := [], outcome := .raised }

end OrderService

/-- N hint-free throttled answers followed by a success, started at any
retryCount with budget for all N retries, make exactly N + 1 calls, wait the
capped exponential backoff before each retry and resolve. -/
theorem productRequest_throttled_then_success :
    ∀ (N k : ℕ), k + N ≤ ProductService.MAX_RETRIES →
      ProductService.makeGraphQLRequest
        (List.replicate N (.throttled none) ++ [.success]) k =
        { calls := N + 1,
          delays := (List.range N).map (fun j => ProductService.backoffDelay (k + j)),
          outcome := .ok () } := by
  intro N
  induction N with
  | zero =>
    intro k _
    rfl
  | succ N ih =>
    intro k h
    simp only [ProductService.MAX_RETRIES] at h
    have hk : k < ProductService.MAX_RETRIES := by
      simp only [ProductService.MAX_RETRIES]
      omega
    simp only [List.replicate_succ, List.cons_append, List.append_eq,
      ProductService.makeGraphQLRequest]
    rw [if_pos hk, ih (k + 1) (by simp only [ProductService.MAX_RETRIES]; omega)]
    rw [List.range_succ_eq_map, List.map_cons, List.map_map]
    have hfun : (fun j => ProductService.backoffDelay (k + j)) ∘ Nat.succ =
        fun j => ProductService.backoffDelay (k + 1 + j) := by
      funext j
      simp only [Function.comp_apply]
      congr 1
      omega
    rw [hfun]
    rfl

/-- N hint-free HTTP 429 answers followed by a success, started at any
retryCount with budget for all N retries, make exactly N + 1 calls, wait the
uncapped exponential backoff before each retry and resolve. -/
theorem orderRequest_429_then_success :
    ∀ (N k : ℕ), k + N ≤ OrderService.MAX_GRAPHQL_RETRIES →
      OrderService.makeGraphQLRequest
        (List.replicate N (.http429 none) ++ [.success]) k =
        { calls := N + 1,
          delays := (List.range N).map
            (fun j => OrderService.GRAPHQL_RETRY_BASE_DELAY * 2 ^ (k + j)),
          outcome := .ok () } := by
  intro N
  induction N with
  | zero =>
    intro k _
    rfl
  | succ N ih =>
    intro k h
    simp only [OrderService.MAX_GRAPHQL_RETRIES] at h
    have hk : k < OrderService.MAX_GRAPHQL_RETRIES := by
      simp only [OrderService.MAX_GRAPHQL_RETRIES]
      omega
    simp only [List.replicate_succ, List.cons_append, List.append_eq,
      OrderService.makeGraphQLRequest]
    rw [if_pos hk, ih (k + 1) (by simp only [OrderService.MAX_GRAPHQL_RETRIES]; omega)]
    rw [List.range_succ_eq_map, List.map_cons, List.map_map]
    have hfun : (fun j => OrderService.GRAPHQL_RETRY_BASE_DELAY * 2 ^ (k + j)) ∘ Nat.succ =
        fun j => OrderService.GRAPHQL_RETRY_BASE_DELAY * 2 ^ (k + 1 + j) := by
      funext j
      simp only [Function.comp_apply]
      congr 2
      omega
    rw [hfun]
    rfl

/-- With no retry budget left, one more throttled answer makes the product
service request raise after exactly the calls already spent plus one,
whatever later answers are scripted. -/
theorem productRequest_exhausts :
    ∀ (N k : ℕ), 1 ≤ N → k + N = ProductService.MAX_RETRIES + 1 →
      ∀ rest : List GraphQLResponse,
        (ProductService.makeGraphQLRequest
          (List.replicate N (.throttled none) ++ rest) k).calls = N ∧
        (ProductService.makeGraphQLRequest
          (List.replicate N (.throttled none) ++ rest) k).outcome = .raised := by
  intro N
  induction N with
  | zero =>
    intro k h
    exact absurd h (by omega)
  | succ N ih =>
    intro k _ h rest
    simp only [ProductService.MAX_RETRIES] at h
    simp only [List.replicate_succ, List.cons_append, List.append_eq,
      ProductService.makeGraphQLRequest]
    by_cases hN : 1 ≤ N
    · have hk : k < ProductService.MAX_RETRIES := by
        simp only [ProductService.MAX_RETRIES]
        omega
      rw [if_pos hk]
      obtain ⟨hc, ho⟩ := ih (k + 1) hN
        (by simp only [ProductService.MAX_RETRIES]; omega) rest
      exact ⟨by simp only [hc], by simp only [ho]⟩
    · have hN0 : N = 0 := by omega
      subst hN0
      have hk : ¬ k < ProductService.MAX_RETRIES := by
        simp only [ProductService.MAX_RETRIES]
        omega
      rw [if_neg hk]
      exact ⟨rfl, rfl⟩

/-- The analogue for the order service request on HTTP 429 answers. -/
theorem orderRequest_exhausts :
    ∀ (N k : ℕ), 1 ≤ N → k + N = OrderService.MAX_GRAPHQL_RETRIES + 1 →
      ∀ rest : List GraphQLResponse,
        (OrderService.makeGraphQLRequest
          (List.replicate N (.http429 none) ++ rest) k).calls = N ∧
        (OrderService.makeGraphQLRequest
          (List.replicate N (.http429 none) ++ rest) k).outcome = .raised := by
  intro N
  induction N with
  | zero =>
    intro k h
    exact absurd h (by omega)
  | succ N ih =>
    intro k _ h rest
    simp only [OrderService.MAX_GRAPHQL_RETRIES] at h
    simp only [List.replicate_succ, List.cons_append, List.append_eq,
      OrderService.makeGraphQLRequest]
    by_cases hN : 1 ≤ N
    · have hk : k < OrderService.MAX_GRAPHQL_RETRIES := by
        simp only [OrderService.MAX_GRAPHQL_RETRIES]
        omega
      rw [if_pos hk]
      obtain ⟨hc, ho⟩ := ih (k + 1) hN
        (by simp only [OrderService.MAX_GRAPHQL_RETRIES]; omega) rest
      exact ⟨by simp only [hc], by simp only [ho]⟩
    · have hN0 : N = 0 := by omega
      subst hN0
      have hk : ¬ k < OrderService.MAX_GRAPHQL_RETRIES := by
        simp only [OrderService.MAX_GRAPHQL_RETRIES]
        omega
      rw [if_neg hk]
      exact ⟨rfl, rfl⟩

/-- C8: for every N up to the fixed maximum retry count, a script of N
hint-free throttled answers followed by a success makes both retrying
request primitives perform exactly N + 1 calls and resolve, with the n-th
retry delay (0-indexed) equal to min(initialDelay * 2^n, maxDelay) for the
product service and initialDelay * 2^n (so at least min(initialDelay * 2^n,
M) for every cap M) for the order service; and once the budget is exhausted
while still throttled, both raise after exactly maxRetries + 1 calls however
many further answers are scripted. -/
theorem c8_retry_policy (N : ℕ) (hN : N ≤ ProductService.MAX_RETRIES) :
    (ProductService.makeGraphQLRequest
      (List.replicate N (.throttled none) ++ [.success]) 0 =
      { calls := N + 1,
        delays := (List.range N).map
          (fun n => min (ProductService.INITIAL_RETRY_DELAY * 2 ^ n)
            ProductService.MAX_RETRY_DELAY),
        outcome := .ok () }) ∧
    (OrderService.makeGraphQLRequest
      (List.replicate N (.http429 none) ++ [.success]) 0 =
      { calls := N + 1,
        delays := (List.range N).map
          (fun n => OrderService.GRAPHQL_RETRY_BASE_DELAY * 2 ^ n),
        outcome := .ok () }) ∧
    (∀ n M : ℕ, min (OrderService.GRAPHQL_RETRY_BASE_DELAY * 2 ^ n) M ≤
      OrderService.GRAPHQL_RETRY_BASE_DELAY * 2 ^ n) ∧
    (∀ rest : List GraphQLResponse,
      (ProductService.makeGraphQLRequest
        (List.replicate (ProductService.MAX_RETRIES + 1) (.throttled none) ++ rest) 0).calls =
          ProductService.MAX_RETRIES + 1 ∧
      (ProductService.makeGraphQLRequest
        (List.replicate (ProductService.MAX_RETRIES + 1) (.throttled none) ++ rest) 0).outcome =
          .raised) ∧
    (∀ rest : List GraphQLResponse,
      (OrderService.makeGraphQLRequest
        (List.replicate (OrderService.MAX_GRAPHQL_RETRIES + 1) (.http429 none) ++ rest) 0).calls =
          OrderService.MAX_GRAPHQL_RETRIES + 1 ∧
      (OrderService.makeGraphQLRequest
        (List.replicate (OrderService.MAX_GRAPHQL_RETRIES + 1) (.http429 none) ++ rest) 0).outcome =
          .raised) := by
  refine ⟨?_, ?_, ?_, ?_, ?_⟩
  · have h := productRequest_throttled_then_success N 0 (by omega)
    simpa [ProductService.backoffDelay, Nat.zero_add] using h
  · have h := orderRequest_429_then_success N 0
      (by simpa [OrderService.MAX_GRAPHQL_RETRIES, ProductService.MAX_RETRIES] using hN)
    simpa [Nat.zero_add] using h
  · intro n M
    exact min_le_left _ _
  · intro rest
    exact productRequest_exhausts (ProductService.MAX_RETRIES + 1) 0 (by omega)
      (by omega) rest
  · intro rest
    exact orderRequest_exhausts (OrderService.MAX_GRAPHQL_RETRIES + 1) 0 (by omega)
      (by omega) rest

/-- Witness for c8_retry_policy at N = 2: two throttled answers then success
give three calls for the product service primitive. -/
theorem c8_retry_policy_witness :
    ProductService.makeGraphQLRequest
      (List.replicate 2 (.throttled none) ++ [.success]) 0 =
      { calls := 2 + 1,
        delays := (List.range 2).map
          (fun n => min (ProductService.INITIAL_RETRY_DELAY * 2 ^ n)
            ProductService.MAX_RETRY_DELAY),
        outcome := .ok () } :=
  (c8_retry_policy 2 (by norm_num [ProductService.MAX_RETRIES])).1
